import Mathlib

/-!
Verification of `pygan/generativemodel/encoder_decoder_model.py`
(`EncoderDecoderModel`, an encoder/decoder LSTM generator adapter).

Modelling conventions:
* A numpy 3-d array of shape `(B, S, F)` (batch, sequence position, feature)
  is an `NDArr`: the three dimensions as data plus a `Fin`-indexed entry map.
  Float entries are idealized as real numbers.
* A cell holding a non-finite float (NaN or infinity) is modelled as `none`
  in an `NDArr (Option ℝ)`; finite values are `some x`.  The only operation
  that can produce a non-finite value in this code is the slice-wise division
  of the two normalization branches, modelled by `divF`, which returns `none`
  exactly when the denominator is zero (in IEEE arithmetic the numerator is
  then `x - x.mean()` over a zero-spread slice, giving `0/0 = NaN`, or a
  finite value over zero giving `±inf`; both are non-finite).  numpy raises
  no exception here, matching totality of the Lean functions.
* `arr[i, seq].mean()`, `.std()`, `.min()`, `.max()` are `npMean`, `npStd`
  (population standard deviation, numpy's default `ddof=0`), `npMin`, `npMax`
  on the feature slice `Fin F → ℝ`.
* The delegate (`EncoderDecoderController`) is opaque: a record of its three
  consumed methods.  `learn` is modelled as returning the trace of delegate
  calls it performs, so that the argument-passing contract is a statement.
* Object identity of numpy arrays (in-place slice assignment versus
  rebinding to a fresh `np.tanh` result) is modelled by `drawObj`, which
  threads an explicit heap (a list of arrays) and returns the index of the
  array object that `draw` returns.
-/

/-- A numpy 3-d array of shape `(B, S, F)` with entries of type `α`. -/
structure NDArr (α : Type) where
  B : ℕ
  S : ℕ
  F : ℕ
  data : Fin B → Fin S → Fin F → α

/-- `slice.mean()` for a feature slice of length `n` (sum divided by `n`). -/
noncomputable def npMean {n : ℕ} (v : Fin n → ℝ) : ℝ :=
  (∑ k, v k) / n

/-- numpy's population variance of a slice: mean of squared deviations. -/
noncomputable def npVar {n : ℕ} (v : Fin n → ℝ) : ℝ :=
  (∑ k, (v k - npMean v) ^ 2) / n

/-- `slice.std()`: population standard deviation (`ddof=0`), the square root
of `npVar`. -/
noncomputable def npStd {n : ℕ} (v : Fin n → ℝ) : ℝ :=
  Real.sqrt (npVar v)

/-- `slice.min()`.  The value for an empty slice is irrelevant: the source
only evaluates it under `arr.shape[2] > 1`. -/
noncomputable def npMin {n : ℕ} (v : Fin n → ℝ) : ℝ :=
  if h : n = 0 then 0
  else Finset.univ.inf' ⟨⟨0, Nat.pos_of_ne_zero h⟩, Finset.mem_univ _⟩ v

/-- `slice.max()`. -/
noncomputable def npMax {n : ℕ} (v : Fin n → ℝ) : ℝ :=
  if h : n = 0 then 0
  else Finset.univ.sup' ⟨⟨0, Nat.pos_of_ne_zero h⟩, Finset.mem_univ _⟩ v

/-- IEEE division as performed by the normalization branches: a zero
denominator yields a non-finite float (`none`); otherwise the real
quotient.  numpy emits a warning but raises no exception. -/
noncomputable def divF (a b : ℝ) : Option ℝ :=
  if b = 0 then none else some (a / b)

/-- The normalization stage of `EncoderDecoderModel.draw`, applied to the
array produced by `self.inference(observed_arr)`.  The source mutates
`arr[i, seq]` in place inside two nested loops; distinct `(i, seq)` slices
are disjoint and each slice's statistics are read before that slice is
overwritten, so the loop equals this pointwise map.  Shape is unchanged in
every branch. -/
noncomputable def normalizeArr (mode : String) (arr : NDArr ℝ) : NDArr (Option ℝ) :=
  ⟨arr.B, arr.S, arr.F,
    if 1 < arr.F then
      if mode = "z_score" then
        fun i j k => divF (arr.data i j k - npMean (arr.data i j)) (npStd (arr.data i j))
      else if mode = "min_max" then
        fun i j k =>
          divF (arr.data i j k - npMin (arr.data i j)) (npMax (arr.data i j) - npMin (arr.data i j))
      else if mode = "tanh" then
        fun i j k => some (Real.tanh (arr.data i j k))
      else
        fun i j k => some (arr.data i j k)
    else
      fun i j k => some (arr.data i j k)⟩

/-- The delegate: the capability set this component consumes, namely
`inference`, `back_propagation` (returning the triple decoder gradients,
encoder delta, encoder gradients) and `optimize`.  Gradient payload types
`DG`, `ED`, `EG` are opaque, owned by the delegate. -/
structure EncoderDecoderController (DG ED EG : Type) where
  inference : NDArr ℝ → NDArr ℝ
  back_propagation : (B F : ℕ) → (Fin B → Fin F → ℝ) → DG × ED × EG
  optimize : DG → EG → ℝ → ℕ → Unit

/-- The noise sampler collaborator, attached externally. -/
structure NoiseSampler where
  generate : Unit → NDArr ℝ

/-- `EncoderDecoderModel` state captured at construction. -/
structure EncoderDecoderModel (DG ED EG : Type) where
  encoder_decoder_controller : EncoderDecoderController DG ED EG
  seq_len : ℕ
  learning_rate : ℝ
  norm_mode : String
  verbose_mode : Bool
  loss_list : List ℝ

/-- Python's `TypeError`, raised by the constructor's delegate check. -/
inductive PyError where
  | typeError

/-- A candidate delegate passed to the constructor: either an
`EncoderDecoderController` instance (hence exposing the three required
methods) or any other object, which fails the constructor's
`isinstance` check. -/
inductive DelegateCandidate (DG ED EG : Type) where
  | instanceOf (c : EncoderDecoderController DG ED EG)
  | notInstance

/-- `EncoderDecoderModel.__init__`: validates the delegate before anything
else observable happens (the logger side effect is out of scope), raising
`TypeError` when the candidate is not an `EncoderDecoderController`;
otherwise stores the configuration and an empty loss list. -/
def EncoderDecoderModel.init {DG ED EG : Type} (cand : DelegateCandidate DG ED EG)
    (seq_len : ℕ) (learning_rate : ℝ) (norm_mode : String) (verbose_mode : Bool) :
    Except PyError (EncoderDecoderModel DG ED EG) :=
  match cand with
  | .instanceOf c => .ok ⟨c, seq_len, learning_rate, norm_mode, verbose_mode, []⟩
  | .notInstance => .error .typeError

/-- `EncoderDecoderModel.inference`: pure forwarding to the delegate. -/
def EncoderDecoderModel.inference {DG ED EG : Type} (m : EncoderDecoderModel DG ED EG)
    (observed_arr : NDArr ℝ) : NDArr ℝ :=
  m.encoder_decoder_controller.inference observed_arr

/-- `EncoderDecoderModel.draw`: sample noise, run delegate inference, then
normalize per the configured mode. -/
noncomputable def EncoderDecoderModel.draw {DG ED EG : Type} (m : EncoderDecoderModel DG ED EG)
    (noise_sampler : NoiseSampler) : NDArr (Option ℝ) :=
  normalizeArr m.norm_mode (m.inference (noise_sampler.generate ()))

/-- The raw inference output inside `draw`: `self.inference(self.noise_sampler.generate())`. -/
abbrev genArr {DG ED EG : Type} (m : EncoderDecoderModel DG ED EG)
    (noise_sampler : NoiseSampler) : NDArr ℝ :=
  m.inference (noise_sampler.generate ())

/-- `grad_arr[:, -1]`: the slice at the last sequence position, of shape
`(B, F)`.  Defined only for a non-empty sequence axis; numpy raises
`IndexError` at `S = 0`, a case no claim touches, modelled by a junk value. -/
def lastSlice (g : NDArr ℝ) : Fin g.B → Fin g.F → ℝ :=
  fun i k =>
    if h : g.S = 0 then 0
    else g.data i ⟨g.S - 1, Nat.sub_lt (Nat.pos_of_ne_zero h) Nat.one_pos⟩ k

/-- One observable call made on the delegate during `learn`. -/
inductive DelegateCall (DG ED EG : Type) where
  | backProp (B F : ℕ) (arg : Fin B → Fin F → ℝ)
  | optimizeCall (decoder_grads : DG) (encoder_grads : EG) (learning_rate : ℝ) (epochs : ℕ)

/-- `EncoderDecoderModel.learn`: backpropagate the last-sequence-position
gradient slice through the delegate, then optimize with the decoder and
encoder gradients, the configured learning rate and a step count of `1`.
The returned list is the trace of delegate calls, in order; the `Unit`
component is the method's (absent) return value. -/
def EncoderDecoderModel.learn {DG ED EG : Type} (m : EncoderDecoderModel DG ED EG)
    (grad_arr : NDArr ℝ) : List (DelegateCall DG ED EG) × Unit :=
  let bp := m.encoder_decoder_controller.back_propagation grad_arr.B grad_arr.F (lastSlice grad_arr)
  let _ := m.encoder_decoder_controller.optimize bp.1 bp.2.2 m.learning_rate 1
  ([DelegateCall.backProp grad_arr.B grad_arr.F (lastSlice grad_arr),
    DelegateCall.optimizeCall bp.1 bp.2.2 m.learning_rate 1], ())

/-- The all-finite image of a real array, as the object initially returned
by the delegate's inference. -/
def toObj (a : NDArr ℝ) : NDArr (Option ℝ) :=
  ⟨a.B, a.S, a.F, fun i j k => some (a.data i j k)⟩

/-- Object-identity model of the normalization stage of `draw`.  The heap is
a list of array objects; `arr` is the array returned by the delegate's
inference, freshly allocated at index `store.length`.  The z-score and
min-max branches assign into that object's slices (`arr[i, seq] = ...`),
so the heap cell is overwritten and the same index is returned; the tanh
branch rebinds `arr = np.tanh(arr)` to a freshly allocated result, leaving
the inference object untouched.  In the remaining cases `normalizeArr`
leaves the contents unchanged, so the `List.set` writes back the original
image. -/
noncomputable def drawObj (mode : String) (store : List (NDArr (Option ℝ)))
    (arr : NDArr ℝ) : List (NDArr (Option ℝ)) × ℕ :=
  let r := store.length
  let store1 := store ++ [toObj arr]
  if 1 < arr.F ∧ mode = "tanh" then
    (store1 ++ [normalizeArr mode arr], store1.length)
  else
    (store1.set r (normalizeArr mode arr), r)

section SliceStats

variable {n : ℕ} (v : Fin n → ℝ)

lemma sum_sub_npMean (hn : n ≠ 0) : ∑ k, (v k - npMean v) = 0 := by
  have hcast : (n : ℝ) ≠ 0 := Nat.cast_ne_zero.mpr hn
  rw [Finset.sum_sub_distrib, Finset.sum_const, Finset.card_univ, Fintype.card_fin, npMean]
  field_simp

lemma npVar_nonneg : 0 ≤ npVar v :=
  div_nonneg (Finset.sum_nonneg fun _ _ => sq_nonneg _) (Nat.cast_nonneg n)

lemma npStd_sq : npStd v ^ 2 = npVar v :=
  Real.sq_sqrt (npVar_nonneg v)

lemma exists_ne_npMean (hnc : ∃ k1 k2, v k1 ≠ v k2) : ∃ k, v k ≠ npMean v := by
  obtain ⟨k1, k2, hne⟩ := hnc
  by_contra hall
  push_neg at hall
  exact hne ((hall k1).trans (hall k2).symm)

lemma npVar_pos (hnc : ∃ k1 k2, v k1 ≠ v k2) : 0 < npVar v := by
  obtain ⟨k0, hk0⟩ := exists_ne_npMean v hnc
  have hn : n ≠ 0 := fun h => (h ▸ k0).elim0
  refine div_pos ?_ (Nat.cast_pos.mpr (Nat.pos_of_ne_zero hn))
  refine Finset.sum_pos' (fun k _ => sq_nonneg _) ⟨k0, Finset.mem_univ _, ?_⟩
  exact (sq_nonneg _).lt_of_ne (Ne.symm (pow_ne_zero 2 (sub_ne_zero.mpr hk0)))

lemma npStd_pos (hnc : ∃ k1 k2, v k1 ≠ v k2) : 0 < npStd v :=
  Real.sqrt_pos.mpr (npVar_pos v hnc)

lemma npMean_center_div (hn : n ≠ 0) (c : ℝ) :
    npMean (fun k => (v k - npMean v) / c) = 0 := by
  have h0 : ∑ k, (v k - npMean v) = 0 := sum_sub_npMean v hn
  show (∑ k, (v k - npMean v) / c) / (n : ℝ) = 0
  rw [← Finset.sum_div, h0]
  simp

lemma npStd_center_div (hnc : ∃ k1 k2, v k1 ≠ v k2) :
    npStd (fun k => (v k - npMean v) / npStd v) = 1 := by
  have hn : n ≠ 0 := by
    obtain ⟨k1, _, _⟩ := hnc
    exact fun h => (h ▸ k1).elim0
  have hvar : 0 < npVar v := npVar_pos v hnc
  have hstd : 0 < npStd v := npStd_pos v hnc
  have hmean : npMean (fun k => (v k - npMean v) / npStd v) = 0 :=
    npMean_center_div v hn (npStd v)
  have hvar1 : npVar (fun k => (v k - npMean v) / npStd v) = 1 := by
    rw [npVar, hmean]
    have h2 : ∀ k : Fin n, ((v k - npMean v) / npStd v - 0) ^ 2
        = (v k - npMean v) ^ 2 / npVar v := by
      intro k
      rw [sub_zero, div_pow, npStd_sq]
    rw [Finset.sum_congr rfl fun k _ => h2 k, ← Finset.sum_div]
    have hsum : ∑ k, (v k - npMean v) ^ 2 = npVar v * n := by
      rw [npVar]
      field_simp
    rw [hsum]
    field_simp
  rw [npStd, hvar1, Real.sqrt_one]

lemma npMin_le (hn : n ≠ 0) (k : Fin n) : npMin v ≤ v k := by
  rw [npMin, dif_neg hn]
  exact Finset.inf'_le _ (Finset.mem_univ k)

lemma le_npMax (hn : n ≠ 0) (k : Fin n) : v k ≤ npMax v := by
  rw [npMax, dif_neg hn]
  exact Finset.le_sup' _ (Finset.mem_univ k)

lemma exists_eq_npMin (hn : n ≠ 0) : ∃ k, v k = npMin v := by
  rw [npMin, dif_neg hn]
  obtain ⟨k, _, hk⟩ := Finset.exists_mem_eq_inf'
    ⟨⟨0, Nat.pos_of_ne_zero hn⟩, Finset.mem_univ _⟩ v
  exact ⟨k, hk.symm⟩

lemma exists_eq_npMax (hn : n ≠ 0) : ∃ k, v k = npMax v := by
  rw [npMax, dif_neg hn]
  obtain ⟨k, _, hk⟩ := Finset.exists_mem_eq_sup'
    ⟨⟨0, Nat.pos_of_ne_zero hn⟩, Finset.mem_univ _⟩ v
  exact ⟨k, hk.symm⟩

lemma npMin_lt_npMax (hnc : ∃ k1 k2, v k1 ≠ v k2) : npMin v < npMax v := by
  obtain ⟨k1, k2, hne⟩ := hnc
  have hn : n ≠ 0 := fun h => (h ▸ k1).elim0
  rcases ((npMin_le v hn k1).trans (le_npMax v hn k1)).eq_or_lt with heq | hlt
  · exfalso
    have hall : ∀ k, v k = npMin v := fun k =>
      le_antisymm (heq ▸ le_npMax v hn k) (npMin_le v hn k)
    exact hne ((hall k1).trans (hall k2).symm)
  · exact hlt

lemma npMean_const (hn : n ≠ 0) (hc : ∀ k1 k2 : Fin n, v k1 = v k2) (k0 : Fin n) :
    npMean v = v k0 := by
  have hcast : (n : ℝ) ≠ 0 := Nat.cast_ne_zero.mpr hn
  rw [npMean, Finset.sum_congr rfl fun k _ => hc k k0, Finset.sum_const,
    Finset.card_univ, Fintype.card_fin]
  field_simp

lemma npStd_const (hn : n ≠ 0) (hc : ∀ k1 k2 : Fin n, v k1 = v k2) : npStd v = 0 := by
  have hvar : npVar v = 0 := by
    have hz : ∀ k : Fin n, (v k - npMean v) ^ 2 = 0 := by
      intro k
      rw [npMean_const v hn hc k, sub_self]
      norm_num
    rw [npVar, Finset.sum_congr rfl fun k _ => hz k, Finset.sum_const]
    simp
  rw [npStd, hvar, Real.sqrt_zero]

lemma npMax_sub_npMin_const (hn : n ≠ 0) (hc : ∀ k1 k2 : Fin n, v k1 = v k2) :
    npMax v - npMin v = 0 := by
  obtain ⟨ka, hka⟩ := exists_eq_npMin v hn
  obtain ⟨kb, hkb⟩ := exists_eq_npMax v hn
  rw [← hka, ← hkb, hc kb ka, sub_self]

end SliceStats

lemma real_tanh_lt_one (x : ℝ) : Real.tanh x < 1 := by
  rw [Real.tanh_eq_sinh_div_cosh]
  exact (div_lt_one (Real.cosh_pos x)).mpr (Real.sinh_lt_cosh x)

lemma neg_one_lt_real_tanh (x : ℝ) : -1 < Real.tanh x := by
  have h := real_tanh_lt_one (-x)
  rw [Real.tanh_neg] at h
  linarith

/-- C7: for every tensor returned by the delegate's inference, `draw()`
returns a tensor of exactly the same shape (all three dimensions), for
every normalization mode and every feature-dimension size. -/
theorem draw_preserves_shape {DG ED EG : Type} (m : EncoderDecoderModel DG ED EG)
    (ns : NoiseSampler) :
    (m.draw ns).B = (genArr m ns).B ∧ (m.draw ns).S = (genArr m ns).S ∧
      (m.draw ns).F = (genArr m ns).F :=
  ⟨rfl, rfl, rfl⟩

/-- C4: whenever the inferred tensor's feature dimension equals 1, `draw()`
returns the raw inference output unchanged, whatever the normalization
mode (z-score, min-max, tanh or anything else). -/
theorem draw_feature_dim_one_identity {DG ED EG : Type} (m : EncoderDecoderModel DG ED EG)
    (ns : NoiseSampler) (hF : (genArr m ns).F = 1) :
    ∀ (i : Fin (genArr m ns).B) (j : Fin (genArr m ns).S) (k : Fin (genArr m ns).F),
      (m.draw ns).data i j k = some ((genArr m ns).data i j k) := by
  intro i j k
  have h1 : ¬ 1 < (genArr m ns).F := by omega
  show (normalizeArr m.norm_mode (genArr m ns)).data i j k = _
  simp [normalizeArr, h1]

/-- C3: in tanh mode with feature dimension > 1, `draw()` applies the
hyperbolic tangent element-wise to the whole raw inference tensor (no
per-slice statistics are involved: each output cell depends only on the
corresponding raw cell), and every output value lies in `(-1, 1)`. -/
theorem draw_tanh_whole_tensor {DG ED EG : Type} (m : EncoderDecoderModel DG ED EG)
    (ns : NoiseSampler) (hmode : m.norm_mode = "tanh") (hF : 1 < (genArr m ns).F) :
    ∀ (i : Fin (genArr m ns).B) (j : Fin (genArr m ns).S) (k : Fin (genArr m ns).F),
      (m.draw ns).data i j k = some (Real.tanh ((genArr m ns).data i j k)) ∧
      -1 < Real.tanh ((genArr m ns).data i j k) ∧
      Real.tanh ((genArr m ns).data i j k) < 1 := by
  intro i j k
  refine ⟨?_, neg_one_lt_real_tanh _, real_tanh_lt_one _⟩
  show (normalizeArr m.norm_mode (genArr m ns)).data i j k = _
  rw [hmode]
  simp [normalizeArr, hF]

/-- C10: for any configured normalization mode other than `"z_score"`,
`"min_max"` and `"tanh"`, `draw()` returns the raw inference output
unchanged (and raises nothing: the function is total), even with feature
dimension > 1. -/
theorem draw_unknown_mode_identity {DG ED EG : Type} (m : EncoderDecoderModel DG ED EG)
    (ns : NoiseSampler) (h1 : m.norm_mode ≠ "z_score") (h2 : m.norm_mode ≠ "min_max")
    (h3 : m.norm_mode ≠ "tanh") :
    ∀ (i : Fin (genArr m ns).B) (j : Fin (genArr m ns).S) (k : Fin (genArr m ns).F),
      (m.draw ns).data i j k = some ((genArr m ns).data i j k) := by
  intro i j k
  show (normalizeArr m.norm_mode (genArr m ns)).data i j k = _
  by_cases hF : 1 < (genArr m ns).F
  · simp [normalizeArr, hF, h1, h2, h3]
  · simp [normalizeArr, hF]

/-- C1: in z-score mode with feature dimension > 1 and every
(batch, sequence-position) slice non-constant, each output slice is the
input slice normalized independently as `(slice - mean) / std` (population
standard deviation), and has mean 0 and population standard deviation 1. -/
theorem draw_z_score_normalizes {DG ED EG : Type} (m : EncoderDecoderModel DG ED EG)
    (ns : NoiseSampler) (hmode : m.norm_mode = "z_score") (hF : 1 < (genArr m ns).F)
    (hnc : ∀ (i : Fin (genArr m ns).B) (j : Fin (genArr m ns).S),
      ∃ k1 k2, (genArr m ns).data i j k1 ≠ (genArr m ns).data i j k2) :
    ∀ (i : Fin (genArr m ns).B) (j : Fin (genArr m ns).S),
      ∃ y : Fin (genArr m ns).F → ℝ,
        (∀ k, (m.draw ns).data i j k = some (y k)) ∧
        (∀ k, y k = ((genArr m ns).data i j k - npMean ((genArr m ns).data i j))
            / npStd ((genArr m ns).data i j)) ∧
        npMean y = 0 ∧ npStd y = 1 := by
  intro i j
  have hvnc := hnc i j
  have hn : (genArr m ns).F ≠ 0 := by omega
  have hstd : npStd ((genArr m ns).data i j) ≠ 0 := ne_of_gt (npStd_pos _ hvnc)
  refine ⟨fun k => ((genArr m ns).data i j k - npMean ((genArr m ns).data i j))
      / npStd ((genArr m ns).data i j), ?_, fun _ => rfl,
    npMean_center_div _ hn _, npStd_center_div _ hvnc⟩
  intro k
  show (normalizeArr m.norm_mode (genArr m ns)).data i j k = _
  rw [hmode]
  simp [normalizeArr, hF, divF, hstd]

/-- C2: in min-max mode with feature dimension > 1 and every
(batch, sequence-position) slice non-constant, each output slice is the
input slice transformed independently as `(slice - min) / (max - min)`;
every output value lies in `[0, 1]` and each slice attains minimum exactly
0 and maximum exactly 1. -/
theorem draw_min_max_normalizes {DG ED EG : Type} (m : EncoderDecoderModel DG ED EG)
    (ns : NoiseSampler) (hmode : m.norm_mode = "min_max") (hF : 1 < (genArr m ns).F)
    (hnc : ∀ (i : Fin (genArr m ns).B) (j : Fin (genArr m ns).S),
      ∃ k1 k2, (genArr m ns).data i j k1 ≠ (genArr m ns).data i j k2) :
    ∀ (i : Fin (genArr m ns).B) (j : Fin (genArr m ns).S),
      ∃ y : Fin (genArr m ns).F → ℝ,
        (∀ k, (m.draw ns).data i j k = some (y k)) ∧
        (∀ k, y k = ((genArr m ns).data i j k - npMin ((genArr m ns).data i j))
            / (npMax ((genArr m ns).data i j) - npMin ((genArr m ns).data i j))) ∧
        (∀ k, 0 ≤ y k ∧ y k ≤ 1) ∧ npMin y = 0 ∧ npMax y = 1 := by
  intro i j
  have hvnc := hnc i j
  have hn : (genArr m ns).F ≠ 0 := by omega
  set v : Fin (genArr m ns).F → ℝ := (genArr m ns).data i j with hv
  have hlt : npMin v < npMax v := npMin_lt_npMax v hvnc
  have hdpos : 0 < npMax v - npMin v := sub_pos.mpr hlt
  have hden : npMax v - npMin v ≠ 0 := ne_of_gt hdpos
  refine ⟨fun k => (v k - npMin v) / (npMax v - npMin v), ?_, fun _ => rfl, ?_, ?_, ?_⟩
  · intro k
    show (normalizeArr m.norm_mode (genArr m ns)).data i j k = _
    rw [hmode]
    simp [normalizeArr, hF, divF, hden, hv]
  · intro k
    constructor
    · exact div_nonneg (sub_nonneg.mpr (npMin_le v hn k)) (le_of_lt hdpos)
    · exact (div_le_one hdpos).mpr (sub_le_sub_right (le_npMax v hn k) _)
  · obtain ⟨k0, hk0⟩ := exists_eq_npMin v hn
    have hy0 : (v k0 - npMin v) / (npMax v - npMin v) = 0 := by
      rw [hk0, sub_self, zero_div]
    refine le_antisymm ?_ ?_
    · calc npMin (fun k => (v k - npMin v) / (npMax v - npMin v))
          ≤ (v k0 - npMin v) / (npMax v - npMin v) := npMin_le _ hn k0
        _ = 0 := hy0
    · obtain ⟨ka, hka⟩ := exists_eq_npMin (fun k => (v k - npMin v) / (npMax v - npMin v)) hn
      rw [← hka]
      exact div_nonneg (sub_nonneg.mpr (npMin_le v hn ka)) (le_of_lt hdpos)
  · obtain ⟨k1, hk1⟩ := exists_eq_npMax v hn
    have hy1 : (v k1 - npMin v) / (npMax v - npMin v) = 1 := by
      rw [hk1, div_self hden]
    refine le_antisymm ?_ ?_
    · obtain ⟨kb, hkb⟩ := exists_eq_npMax (fun k => (v k - npMin v) / (npMax v - npMin v)) hn
      rw [← hkb]
      exact (div_le_one hdpos).mpr (sub_le_sub_right (le_npMax v hn kb) _)
    · calc (1 : ℝ) = (v k1 - npMin v) / (npMax v - npMin v) := hy1.symm
        _ ≤ npMax (fun k => (v k - npMin v) / (npMax v - npMin v)) :=
          le_npMax (fun k => (v k - npMin v) / (npMax v - npMin v)) hn k1

/-- C8: in z-score and min-max modes with feature dimension > 1, a constant
(batch, sequence-position) slice of the raw inference output makes the
divisor zero; the division is unguarded, `draw()` raises nothing (the
function is total and the other slices are unaffected), and every cell of
the corresponding output slice is non-finite (`none`). -/
theorem draw_constant_slice_nonfinite {DG ED EG : Type} (m : EncoderDecoderModel DG ED EG)
    (ns : NoiseSampler) (hF : 1 < (genArr m ns).F)
    (hmode : m.norm_mode = "z_score" ∨ m.norm_mode = "min_max") :
    ∀ (i : Fin (genArr m ns).B) (j : Fin (genArr m ns).S),
      (∀ k1 k2, (genArr m ns).data i j k1 = (genArr m ns).data i j k2) →
      ∀ k, (m.draw ns).data i j k = none := by
  intro i j hc k
  have hn : (genArr m ns).F ≠ 0 := by omega
  rcases hmode with h | h
  · have hstd : npStd ((genArr m ns).data i j) = 0 := npStd_const _ hn hc
    show (normalizeArr m.norm_mode (genArr m ns)).data i j k = none
    rw [h]
    simp [normalizeArr, hF, divF, hstd]
  · have hden : npMax ((genArr m ns).data i j) - npMin ((genArr m ns).data i j) = 0 :=
      npMax_sub_npMin_const _ hn hc
    show (normalizeArr m.norm_mode (genArr m ns)).data i j k = none
    rw [h]
    simp [normalizeArr, hF, divF, hden]

/-- C5: for a gradient tensor with non-empty sequence axis, `learn` makes
exactly two delegate calls, in order: `back_propagation` with exactly the
last-sequence-position slice `grad_arr[:, -1]` (shape `(B, F)`), then
`optimize` with the returned decoder gradients (first component), the
returned encoder gradients (third component), the configured learning
rate and the fixed step count 1; and `learn` returns no value. -/
theorem learn_forwards_last_slice {DG ED EG : Type} (m : EncoderDecoderModel DG ED EG)
    (grad_arr : NDArr ℝ) (h : 0 < grad_arr.S) :
    (m.learn grad_arr).2 = () ∧
    (m.learn grad_arr).1 =
      [DelegateCall.backProp grad_arr.B grad_arr.F
          (fun i k => grad_arr.data i ⟨grad_arr.S - 1, Nat.sub_lt h Nat.one_pos⟩ k),
       DelegateCall.optimizeCall
         (m.encoder_decoder_controller.back_propagation grad_arr.B grad_arr.F
            (fun i k => grad_arr.data i ⟨grad_arr.S - 1, Nat.sub_lt h Nat.one_pos⟩ k)).1
         (m.encoder_decoder_controller.back_propagation grad_arr.B grad_arr.F
            (fun i k => grad_arr.data i ⟨grad_arr.S - 1, Nat.sub_lt h Nat.one_pos⟩ k)).2.2
         m.learning_rate 1] := by
  have hls : lastSlice grad_arr = fun i k =>
      grad_arr.data i ⟨grad_arr.S - 1, Nat.sub_lt h Nat.one_pos⟩ k := by
    funext i k
    show dite _ _ _ = _
    rw [dif_neg (Nat.pos_iff_ne_zero.mp h)]
  refine ⟨rfl, ?_⟩
  show [DelegateCall.backProp grad_arr.B grad_arr.F (lastSlice grad_arr),
      DelegateCall.optimizeCall
        (m.encoder_decoder_controller.back_propagation grad_arr.B grad_arr.F
          (lastSlice grad_arr)).1
        (m.encoder_decoder_controller.back_propagation grad_arr.B grad_arr.F
          (lastSlice grad_arr)).2.2
        m.learning_rate 1] = _
  rw [hls]

/-- C6: constructing with a candidate delegate that is not an
`EncoderDecoderController` (hence does not carry the `inference`,
`back_propagation`, `optimize` capability set) fails with a `TypeError`
before anything else happens; construction with an
`EncoderDecoderController` instance succeeds, storing it. -/
theorem init_type_validation (DG ED EG : Type) (seq_len : ℕ) (learning_rate : ℝ)
    (norm_mode : String) (verbose_mode : Bool) :
    EncoderDecoderModel.init (DelegateCandidate.notInstance : DelegateCandidate DG ED EG)
        seq_len learning_rate norm_mode verbose_mode = Except.error PyError.typeError ∧
    ∀ c : EncoderDecoderController DG ED EG,
      EncoderDecoderModel.init (DelegateCandidate.instanceOf c)
          seq_len learning_rate norm_mode verbose_mode =
        Except.ok ⟨c, seq_len, learning_rate, norm_mode, verbose_mode, []⟩ :=
  ⟨rfl, fun _ => rfl⟩

/-- C9: object identity of `draw`'s result.  In z-score and min-max modes
with feature dimension > 1, the heap cell of the array returned by the
delegate's inference (index `store.length`) is overwritten with the
normalized values, no further array is allocated, and that same index is
returned.  In tanh mode a fresh array is allocated, its (distinct) index
is returned, and the inference array's cell still holds its original
values. -/
theorem draw_aliasing (mode : String) (store : List (NDArr (Option ℝ))) (arr : NDArr ℝ)
    (hF : 1 < arr.F) :
    ((mode = "z_score" ∨ mode = "min_max") →
      (drawObj mode store arr).2 = store.length ∧
      (drawObj mode store arr).1.length = store.length + 1 ∧
      (drawObj mode store arr).1[store.length]? = some (normalizeArr mode arr)) ∧
    (mode = "tanh" →
      (drawObj mode store arr).2 = store.length + 1 ∧
      (drawObj mode store arr).2 ≠ store.length ∧
      (drawObj mode store arr).1[store.length]? = some (toObj arr) ∧
      (drawObj mode store arr).1[store.length + 1]? = some (normalizeArr mode arr) ∧
      (drawObj mode store arr).1.length = store.length + 2) := by
  constructor
  · intro hmode
    have hnt : ¬ (1 < arr.F ∧ mode = "tanh") := by
      rcases hmode with h | h <;> rw [h] <;> simp
    have hobj : drawObj mode store arr =
        ((store ++ [toObj arr]).set store.length (normalizeArr mode arr), store.length) := by
      rw [drawObj]
      simp [hnt]
    rw [hobj]
    refine ⟨rfl, by simp, ?_⟩
    have hlen : store.length < (store ++ [toObj arr]).length := by simp
    exact List.getElem?_set_self hlen
  · intro hmode
    have ht : (1 < arr.F ∧ mode = "tanh") := ⟨hF, hmode⟩
    have hobj : drawObj mode store arr =
        ((store ++ [toObj arr]) ++ [normalizeArr mode arr], store.length + 1) := by
      rw [drawObj]
      simp [ht]
    rw [hobj]
    refine ⟨rfl, by omega, ?_, ?_, by simp⟩
    · have hlen : store.length < (store ++ [toObj arr]).length := by simp
      rw [List.getElem?_append_left hlen]
      exact List.getElem?_concat_length store (toObj arr)
    · have hlen2 : store.length + 1 = (store ++ [toObj arr]).length := by simp
      rw [hlen2]
      exact List.getElem?_concat_length _ _

/-- A `(1, 1, 2)` inference output with one non-constant slice `[0, 10]`. -/
def exArr2 : NDArr ℝ :=
  ⟨1, 1, 2, fun _ _ k => if k = 0 then 0 else 10⟩

/-- A `(1, 1, 2)` inference output whose single slice is constant. -/
def exArrConst : NDArr ℝ :=
  ⟨1, 1, 2, fun _ _ _ => 5⟩

/-- A `(1, 2, 1)` inference output: feature dimension 1. -/
def exArrF1 : NDArr ℝ :=
  ⟨1, 2, 1, fun _ _ _ => 3⟩

/-- A `(2, 5, 3)` gradient tensor. -/
def exGrad : NDArr ℝ :=
  ⟨2, 5, 3, fun i j k => ((i : ℕ) : ℝ) + ((j : ℕ) : ℝ) + ((k : ℕ) : ℝ)⟩

/-- A delegate whose inference always returns `a`. -/
def mkController (a : NDArr ℝ) : EncoderDecoderController Unit Unit Unit :=
  ⟨fun _ => a, fun _ _ _ => ((), (), ()), fun _ _ _ _ => ()⟩

/-- A model wrapping `mkController a`, with the source's default
configuration except for the given normalization mode. -/
noncomputable def mkModel (a : NDArr ℝ) (mode : String) : EncoderDecoderModel Unit Unit Unit :=
  ⟨mkController a, 10, 1e-5, mode, false, []⟩

/-- A concrete noise sampler (its output is ignored by `mkController`). -/
def exSampler : NoiseSampler :=
  ⟨fun _ => ⟨1, 1, 2, fun _ _ _ => 0⟩⟩

lemma exArr2_nonconstant :
    ∀ (i : Fin (genArr (mkModel exArr2 "z_score") exSampler).B)
      (j : Fin (genArr (mkModel exArr2 "z_score") exSampler).S),
      ∃ k1 k2, (genArr (mkModel exArr2 "z_score") exSampler).data i j k1 ≠
        (genArr (mkModel exArr2 "z_score") exSampler).data i j k2 := by
  intro i j
  refine ⟨⟨0, by decide⟩, ⟨1, by decide⟩, ?_⟩
  show (if (0 : Fin 2) = 0 then (0 : ℝ) else 10) ≠ (if (1 : Fin 2) = 0 then (0 : ℝ) else 10)
  norm_num

theorem draw_z_score_normalizes_witness :
    ((mkModel exArr2 "z_score").norm_mode = "z_score" ∧
      1 < (genArr (mkModel exArr2 "z_score") exSampler).F ∧
      (∀ (i : Fin (genArr (mkModel exArr2 "z_score") exSampler).B)
        (j : Fin (genArr (mkModel exArr2 "z_score") exSampler).S),
        ∃ k1 k2, (genArr (mkModel exArr2 "z_score") exSampler).data i j k1 ≠
          (genArr (mkModel exArr2 "z_score") exSampler).data i j k2)) ∧
    (∀ (i : Fin (genArr (mkModel exArr2 "z_score") exSampler).B)
      (j : Fin (genArr (mkModel exArr2 "z_score") exSampler).S),
      ∃ y : Fin (genArr (mkModel exArr2 "z_score") exSampler).F → ℝ,
        (∀ k, ((mkModel exArr2 "z_score").draw exSampler).data i j k = some (y k)) ∧
        (∀ k, y k = ((genArr (mkModel exArr2 "z_score") exSampler).data i j k
            - npMean ((genArr (mkModel exArr2 "z_score") exSampler).data i j))
            / npStd ((genArr (mkModel exArr2 "z_score") exSampler).data i j)) ∧
        npMean y = 0 ∧ npStd y = 1) :=
  ⟨⟨rfl, by decide, exArr2_nonconstant⟩,
    draw_z_score_normalizes (mkModel exArr2 "z_score") exSampler rfl (by decide)
      exArr2_nonconstant⟩

lemma exArr2_nonconstant_mm :
    ∀ (i : Fin (genArr (mkModel exArr2 "min_max") exSampler).B)
      (j : Fin (genArr (mkModel exArr2 "min_max") exSampler).S),
      ∃ k1 k2, (genArr (mkModel exArr2 "min_max") exSampler).data i j k1 ≠
        (genArr (mkModel exArr2 "min_max") exSampler).data i j k2 := by
  intro i j
  refine ⟨⟨0, by decide⟩, ⟨1, by decide⟩, ?_⟩
  show (if (0 : Fin 2) = 0 then (0 : ℝ) else 10) ≠ (if (1 : Fin 2) = 0 then (0 : ℝ) else 10)
  norm_num

theorem draw_min_max_normalizes_witness :
    ((mkModel exArr2 "min_max").norm_mode = "min_max" ∧
      1 < (genArr (mkModel exArr2 "min_max") exSampler).F ∧
      (∀ (i : Fin (genArr (mkModel exArr2 "min_max") exSampler).B)
        (j : Fin (genArr (mkModel exArr2 "min_max") exSampler).S),
        ∃ k1 k2, (genArr (mkModel exArr2 "min_max") exSampler).data i j k1 ≠
          (genArr (mkModel exArr2 "min_max") exSampler).data i j k2)) ∧
    (∀ (i : Fin (genArr (mkModel exArr2 "min_max") exSampler).B)
      (j : Fin (genArr (mkModel exArr2 "min_max") exSampler).S),
      ∃ y : Fin (genArr (mkModel exArr2 "min_max") exSampler).F → ℝ,
        (∀ k, ((mkModel exArr2 "min_max").draw exSampler).data i j k = some (y k)) ∧
        (∀ k, y k = ((genArr (mkModel exArr2 "min_max") exSampler).data i j k
            - npMin ((genArr (mkModel exArr2 "min_max") exSampler).data i j))
            / (npMax ((genArr (mkModel exArr2 "min_max") exSampler).data i j)
              - npMin ((genArr (mkModel exArr2 "min_max") exSampler).data i j))) ∧
        (∀ k, 0 ≤ y k ∧ y k ≤ 1) ∧ npMin y = 0 ∧ npMax y = 1) :=
  ⟨⟨rfl, by decide, exArr2_nonconstant_mm⟩,
    draw_min_max_normalizes (mkModel exArr2 "min_max") exSampler rfl (by decide)
      exArr2_nonconstant_mm⟩

theorem draw_tanh_whole_tensor_witness :
    ((mkModel exArr2 "tanh").norm_mode = "tanh" ∧
      1 < (genArr (mkModel exArr2 "tanh") exSampler).F) ∧
    (∀ (i : Fin (genArr (mkModel exArr2 "tanh") exSampler).B)
      (j : Fin (genArr (mkModel exArr2 "tanh") exSampler).S)
      (k : Fin (genArr (mkModel exArr2 "tanh") exSampler).F),
      ((mkModel exArr2 "tanh").draw exSampler).data i j k =
        some (Real.tanh ((genArr (mkModel exArr2 "tanh") exSampler).data i j k)) ∧
      -1 < Real.tanh ((genArr (mkModel exArr2 "tanh") exSampler).data i j k) ∧
      Real.tanh ((genArr (mkModel exArr2 "tanh") exSampler).data i j k) < 1) :=
  ⟨⟨rfl, by decide⟩,
    draw_tanh_whole_tensor (mkModel exArr2 "tanh") exSampler rfl (by decide)⟩

theorem draw_feature_dim_one_identity_witness :
    (genArr (mkModel exArrF1 "z_score") exSampler).F = 1 ∧
    (∀ (i : Fin (genArr (mkModel exArrF1 "z_score") exSampler).B)
      (j : Fin (genArr (mkModel exArrF1 "z_score") exSampler).S)
      (k : Fin (genArr (mkModel exArrF1 "z_score") exSampler).F),
      ((mkModel exArrF1 "z_score").draw exSampler).data i j k =
        some ((genArr (mkModel exArrF1 "z_score") exSampler).data i j k)) :=
  ⟨rfl, draw_feature_dim_one_identity (mkModel exArrF1 "z_score") exSampler rfl⟩

theorem learn_forwards_last_slice_witness :
    0 < exGrad.S ∧
    (((mkModel exArr2 "z_score").learn exGrad).2 = () ∧
      ((mkModel exArr2 "z_score").learn exGrad).1 =
        [DelegateCall.backProp exGrad.B exGrad.F
            (fun i k => exGrad.data i ⟨exGrad.S - 1, by decide⟩ k),
         DelegateCall.optimizeCall
           ((mkModel exArr2 "z_score").encoder_decoder_controller.back_propagation
              exGrad.B exGrad.F
              (fun i k => exGrad.data i ⟨exGrad.S - 1, by decide⟩ k)).1
           ((mkModel exArr2 "z_score").encoder_decoder_controller.back_propagation
              exGrad.B exGrad.F
              (fun i k => exGrad.data i ⟨exGrad.S - 1, by decide⟩ k)).2.2
           (mkModel exArr2 "z_score").learning_rate 1]) :=
  ⟨by decide, learn_forwards_last_slice (mkModel exArr2 "z_score") exGrad (by decide)⟩

theorem draw_constant_slice_nonfinite_witness :
    (1 < (genArr (mkModel exArrConst "z_score") exSampler).F ∧
      ((mkModel exArrConst "z_score").norm_mode = "z_score" ∨
        (mkModel exArrConst "z_score").norm_mode = "min_max")) ∧
    (∀ (i : Fin (genArr (mkModel exArrConst "z_score") exSampler).B)
      (j : Fin (genArr (mkModel exArrConst "z_score") exSampler).S),
      (∀ k1 k2, (genArr (mkModel exArrConst "z_score") exSampler).data i j k1 =
        (genArr (mkModel exArrConst "z_score") exSampler).data i j k2) →
      ∀ k, ((mkModel exArrConst "z_score").draw exSampler).data i j k = none) :=
  ⟨⟨by decide, Or.inl rfl⟩,
    draw_constant_slice_nonfinite (mkModel exArrConst "z_score") exSampler (by decide)
      (Or.inl rfl)⟩

theorem draw_aliasing_witness :
    1 < exArr2.F ∧
    ((("z_score" = "z_score" ∨ "z_score" = "min_max") →
      (drawObj "z_score" [] exArr2).2 = List.length ([] : List (NDArr (Option ℝ))) ∧
      (drawObj "z_score" [] exArr2).1.length =
        List.length ([] : List (NDArr (Option ℝ))) + 1 ∧
      (drawObj "z_score" [] exArr2).1[List.length ([] : List (NDArr (Option ℝ)))]? =
        some (normalizeArr "z_score" exArr2)) ∧
    (("z_score" : String) = "tanh" →
      (drawObj "z_score" [] exArr2).2 = List.length ([] : List (NDArr (Option ℝ))) + 1 ∧
      (drawObj "z_score" [] exArr2).2 ≠ List.length ([] : List (NDArr (Option ℝ))) ∧
      (drawObj "z_score" [] exArr2).1[List.length ([] : List (NDArr (Option ℝ)))]? =
        some (toObj exArr2) ∧
      (drawObj "z_score" [] exArr2).1[List.length ([] : List (NDArr (Option ℝ))) + 1]? =
        some (normalizeArr "z_score" exArr2) ∧
      (drawObj "z_score" [] exArr2).1.length =
        List.length ([] : List (NDArr (Option ℝ))) + 2)) :=
  ⟨by decide, draw_aliasing "z_score" [] exArr2 (by decide)⟩

theorem draw_unknown_mode_identity_witness :
    ((mkModel exArr2 "identity").norm_mode ≠ "z_score" ∧
      (mkModel exArr2 "identity").norm_mode ≠ "min_max" ∧
      (mkModel exArr2 "identity").norm_mode ≠ "tanh") ∧
    (∀ (i : Fin (genArr (mkModel exArr2 "identity") exSampler).B)
      (j : Fin (genArr (mkModel exArr2 "identity") exSampler).S)
      (k : Fin (genArr (mkModel exArr2 "identity") exSampler).F),
      ((mkModel exArr2 "identity").draw exSampler).data i j k =
        some ((genArr (mkModel exArr2 "identity") exSampler).data i j k)) :=
  ⟨⟨by decide, by decide, by decide⟩,
    draw_unknown_mode_identity (mkModel exArr2 "identity") exSampler
      (by decide) (by decide) (by decide)⟩
